import Mathlib

/-!
Verification of the cache-coordinated URL-shortener core
(repository `Kosench/go-url-shortener`).

The Go sources are shallowly embedded below:

* `model.URL`, the `urls` table and `PostgresURLRepository` /
  `CachedURLRepository` (files `internal/repository/url_repository.go`,
  `internal/repository/cached_url_repository.go`, schema `urls`):
  the durable store is a list of rows plus the next `BIGSERIAL` value;
  the volatile cache is one association list per key prefix
  (`url:`, `short:`, `clicks:` — the `KeyBuilder` namespaces keyspaces by
  prefix, so separate fields model separate prefixes; the `md5` hash used
  for reverse keys is modelled as the identity on the locator, which is
  faithful up to md5 collisions).  Every cache call can fail: each
  embedded operation takes one `Bool` per cache call it performs
  (`true` injects a cache-layer error for that call), mirroring that any
  Redis round trip may error.  `int64` columns are modelled as unbounded
  `Int` (overflow at 2^63 clicks is out of scope).
* `URLService` (file `internal/service/url_service.go`, the version with
  the conflict-retry loop and `maxRetries = 5`): randomness of
  `utils.GenerateShortCode` is an oracle `gen : Nat → Option String`
  giving the code drawn at each attempt (`none` = the generator returned
  an error, which the loop also retries).
* `utils.ValidateURL` / `utils.SanitizeInput` (file
  `internal/utils/validator.go`): `SanitizeInput` is embedded exactly
  (strip runes < 32 other than tab/LF/CR, then `strings.TrimSpace` with
  Go's `unicode.IsSpace` set).  `ValidateURL` delegates URL parsing to
  the Go standard library; `goURLParse` models `net/url.Parse` for the
  scheme/host extraction `ValidateURL` inspects: control bytes are
  rejected, the scheme is cut at the first colon and lowercased, the
  authority runs up to the first of `/ ? #`, an optional numeric port is
  cut at the last colon, and host characters are restricted to the set
  Go accepts in a host.  (Bracketed IPv6 hosts, userinfo `@` parts and
  percent-escapes are not modelled; no claim depends on them.  URLs the
  model rejects that Go would also reject, possibly with a different
  message, are equivalent for every claim, which only distinguishes
  acceptance from rejection.)
* `utils.GenerateShortCodeWithLength` (file
  `internal/utils/shortcode.go`): `crypto/rand.Int` is an oracle
  `Nat → Fin 56` (its contract: a value uniform in `[0, len(alphabet))`);
  a negative length makes Go's `make([]byte, length)` panic, modelled as
  `none`.
* `RedisClient.IncrementRateLimit` (file `internal/cache/redis.go`):
  Redis time is an explicit `now` parameter; a key is live while
  `now < expiresAt`; `INCR` treats an expired or absent key as `0`;
  `EXPIRE` unconditionally re-sets the expiry — exactly the two commands
  the Go pipeline issues.
* `CachedURLRepository.BatchIncrementClickCount`: the transaction is
  modelled by computing the updated row set and installing it only on
  commit; any failed `Exec` (injected via `execFaults`) aborts and the
  original rows are kept (`defer tx.Rollback()`).  Go iterates a map in
  unspecified order; the embedding takes the updates as a list.

Errors keep their structure (`BusinessError` keeps its `Code` and cause;
human-readable message strings are elided).
-/

/-- `model.URL` / a row of the `urls` table.  `id` is the surrogate key,
`clickCount` the `BIGINT` counter, `createdAt` the timestamp. -/
structure URL where
  id : Int
  originalURL : String
  shortCode : String
  clickCount : Int
  createdAt : Int
deriving DecidableEq, Repr

/-- The durable store: the `urls` table plus the next `BIGSERIAL` id. -/
structure DB where
  rows : List URL
  nextId : Int
deriving DecidableEq, Repr

/-- The error taxonomy of `internal/errors`: `ErrShortCodeExists`,
`ErrURLNotFound` (wrapping context elided), `ValidationError`,
`BusinessError` (its `Code` and its `Cause` — `business` for a nil
cause, `businessCaused` otherwise; the display message is elided), a
`crypto/rand` failure, and a transaction-level failure
(`fmt.Errorf`-wrapped begin/prepare/exec errors in the batch flush). -/
inductive AppError where
  | shortCodeExists
  | urlNotFound
  | validation (field : String) (message : String)
  | business (code : String)
  | businessCaused (code : String) (cause : AppError)
  | randFailure
  | txFailure
deriving DecidableEq, Repr

/-- Cache-layer error signals: `ErrCacheMiss` versus any other cache
error (connection, timeout, marshalling — all absorbed identically). -/
inductive CacheErr where
  | cacheMiss
  | cacheFailure
deriving DecidableEq, Repr

/-- Decidable equality for `Except` results, so concrete runs can be
checked by `decide`. -/
instance {ε α : Type} [DecidableEq ε] [DecidableEq α] : DecidableEq (Except ε α) := fun a b =>
  match a, b with
  | .ok x, .ok y =>
    if h : x = y then .isTrue (by rw [h]) else .isFalse (by intro hc; cases hc; exact h rfl)
  | .error x, .error y =>
    if h : x = y then .isTrue (by rw [h]) else .isFalse (by intro hc; cases hc; exact h rfl)
  | .ok _, .error _ => .isFalse (by intro hc; cases hc)
  | .error _, .ok _ => .isFalse (by intro hc; cases hc)

/-- One cache keyspace: lookup of the newest binding for a key. -/
def cGet {α : Type} : List (String × α) → String → Option α
  | [], _ => none
  | (k, v) :: ps, key => if k = key then some v else cGet ps key

/-- Redis `SET`: the new binding shadows any older one. -/
def cPut {α : Type} (l : List (String × α)) (k : String) (v : α) : List (String × α) :=
  (k, v) :: l

/-- Redis `DEL`: every binding for the key is removed. -/
def cDel {α : Type} : List (String × α) → String → List (String × α)
  | [], _ => []
  | p :: ps, k => if p.1 = k then cDel ps k else p :: cDel ps k

/-- The volatile cache: one association list per `KeyBuilder` prefix
(`url:<code>` mapping records, `short:<hash(locator)>` reverse index,
`clicks:<code>` counters). -/
structure CacheSt where
  urls : List (String × URL)
  strs : List (String × String)
  clicks : List (String × Int)
deriving DecidableEq, Repr

/-- The whole system: durable store plus cache. -/
structure SysState where
  db : DB
  cache : CacheSt
deriving DecidableEq, Repr

/-- The empty system (fresh database, empty cache). -/
def initState : SysState :=
  { db := { rows := [], nextId := 1 }, cache := { urls := [], strs := [], clicks := [] } }

/-- `RedisClient.Get` of a mapping record: an injected fault, else the
stored value, else `ErrCacheMiss`. -/
def cacheGetURL (c : CacheSt) (key : String) (fault : Bool) : Except CacheErr URL :=
  if fault then .error .cacheFailure
  else match cGet c.urls key with
    | some v => .ok v
    | none => .error .cacheMiss

/-- `RedisClient.Set` of a mapping record; a faulted call leaves the
cache unchanged (the caller logs and continues). -/
def cacheSetURL (c : CacheSt) (key : String) (v : URL) (fault : Bool) : CacheSt :=
  if fault then c else { c with urls := cPut c.urls key v }

/-- `RedisClient.GetString` on the reverse-index keyspace. -/
def cacheGetStr (c : CacheSt) (key : String) (fault : Bool) : Except CacheErr String :=
  if fault then .error .cacheFailure
  else match cGet c.strs key with
    | some v => .ok v
    | none => .error .cacheMiss

/-- `RedisClient.SetString` on the reverse-index keyspace. -/
def cacheSetStr (c : CacheSt) (key : String) (v : String) (fault : Bool) : CacheSt :=
  if fault then c else { c with strs := cPut c.strs key v }

/-- `RedisClient.SetClickCount` on the counter keyspace. -/
def cacheSetClicks (c : CacheSt) (key : String) (v : Int) (fault : Bool) : CacheSt :=
  if fault then c else { c with clicks := cPut c.clicks key v }

/-- `RedisClient.Delete` of a mapping record. -/
def cacheDelURL (c : CacheSt) (key : String) (fault : Bool) : CacheSt :=
  if fault then c else { c with urls := cDel c.urls key }

/-- `SELECT ... FROM urls WHERE short_code = $1` (the code is `UNIQUE`;
the first match is the row). -/
def findByCode : List URL → String → Option URL
  | [], _ => none
  | r :: rs, code => if r.shortCode = code then some r else findByCode rs code

/-- `... WHERE id = $1`. -/
def findById : List URL → Int → Option URL
  | [], _ => none
  | r :: rs, i => if r.id = i then some r else findById rs i

/-- `UPDATE urls SET click_count = click_count + 1 WHERE id = $1`. -/
def bumpById (rows : List URL) (i : Int) : List URL :=
  rows.map (fun r => if r.id = i then { r with clickCount := r.clickCount + 1 } else r)

/-- `UPDATE urls SET click_count = click_count + $1 WHERE short_code = $2`
(zero rows affected is not an error for the batch flush). -/
def applyInc (rows : List URL) (code : String) (inc : Int) : List URL :=
  rows.map (fun r => if r.shortCode = code then { r with clickCount := r.clickCount + inc } else r)

/-- `PostgresURLRepository.Create`: `INSERT ... ON CONFLICT (short_code)
DO NOTHING RETURNING id`.  On conflict no row comes back
(`sql.ErrNoRows`) and the store is untouched; on success the row is
appended with the next serial id and `click_count` at its column default
`0`, and the caller's struct gets the returned id (Go mutates
`url.ID`). -/
def dbCreate (db : DB) (u : URL) : DB × Except AppError URL :=
  match findByCode db.rows u.shortCode with
  | some _ => (db, .error .shortCodeExists)
  | none =>
    let row : URL := { u with id := db.nextId, clickCount := 0 }
    ({ rows := db.rows ++ [row], nextId := db.nextId + 1 }, .ok { u with id := db.nextId })

/-- `ORDER BY created_at DESC LIMIT 1` over rows matching the locator
(ties are broken arbitrarily by the database; the model keeps the first
maximal row). -/
def dbNewestByOriginal (rows : List URL) (url : String) : Option URL :=
  (rows.filter (fun r => r.originalURL = url)).foldl
    (fun acc r =>
      match acc with
      | none => some r
      | some b => if r.createdAt > b.createdAt then some r else some b)
    none

/-- `CachedURLRepository.Create`: the atomic conditional insert, then
best-effort cache population of the mapping record and of the reverse
index from the locator to the code. -/
def repoCreate (s : SysState) (u : URL) (fSet fStr : Bool) : SysState × Except AppError URL :=
  match dbCreate s.db u with
  | (db2, .error e) => ({ s with db := db2 }, .error e)
  | (db2, .ok r) =>
    let c1 := cacheSetURL s.cache r.shortCode r fSet
    let c2 := cacheSetStr c1 r.originalURL r.shortCode fStr
    ({ db := db2, cache := c2 }, .ok r)

/-- `CachedURLRepository.GetByShortCode`: cache-aside read.  A cache hit
returns immediately; a miss or any cache error falls through to the
store, repopulates the mapping entry and seeds the counter keyspace with
the durable count. -/
def repoGetByShortCode (s : SysState) (code : String) (fGet fSet fClk : Bool) :
    SysState × Except AppError URL :=
  match cacheGetURL s.cache code fGet with
  | .ok v => (s, .ok v)
  | .error _ =>
    match findByCode s.db.rows code with
    | none => (s, .error .urlNotFound)
    | some row =>
      let c1 := cacheSetURL s.cache code row fSet
      let c2 := cacheSetClicks c1 code row.clickCount fClk
      ({ s with cache := c2 }, .ok row)

/-- `CachedURLRepository.IncrementClickCount`: `UPDATE ... RETURNING
short_code, click_count`, then best-effort counter refresh and deletion
of the mapping's cache entry. -/
def repoIncrementClickCount (s : SysState) (i : Int) (fClk fDel : Bool) :
    SysState × Except AppError Unit :=
  match findById s.db.rows i with
  | none => (s, .error .urlNotFound)
  | some row =>
    let db2 : DB := { s.db with rows := bumpById s.db.rows i }
    let c1 := cacheSetClicks s.cache row.shortCode (row.clickCount + 1) fClk
    let c2 := cacheDelURL c1 row.shortCode fDel
    ({ db := db2, cache := c2 }, .ok ())

/-- `CachedURLRepository.GetByOriginalURL`: probe the reverse index; on
a non-empty hit delegate to `repoGetByShortCode`; otherwise query the
store for the newest match and backfill both cache entries. -/
def repoGetByOriginalURL (s : SysState) (url : String)
    (fRev fGet fSet fClk fStr2 fSet2 : Bool) : SysState × Except AppError URL :=
  let dbPath : SysState × Except AppError URL :=
    match dbNewestByOriginal s.db.rows url with
    | none => (s, .error .urlNotFound)
    | some row =>
      let c1 := cacheSetStr s.cache url row.shortCode fStr2
      let c2 := cacheSetURL c1 row.shortCode row fSet2
      ({ s with cache := c2 }, .ok row)
  match cacheGetStr s.cache url fRev with
  | .ok code => if code ≠ "" then repoGetByShortCode s code fGet fSet fClk else dbPath
  | .error _ => dbPath

/-- `CachedURLRepository.BatchIncrementClickCount`, loop body: each
`stmt.ExecContext` either fails (aborting the transaction) or applies
one increment; `faults` injects exec errors positionally. -/
def batchExec : List URL → List (String × Int) → List Bool → Option (List URL)
  | rows, [], _ => some rows
  | rows, (code, inc) :: rest, faults =>
    if faults.headD false then none
    else batchExec (applyInc rows code inc) rest faults.tail

/-- `CachedURLRepository.BatchIncrementClickCount`: an empty batch is a
no-op before any transaction starts; otherwise all increments run in one
transaction and are installed only on commit — any begin/prepare/exec
failure rolls everything back. -/
def batchIncrementClickCount (db : DB) (updates : List (String × Int))
    (beginFault prepFault : Bool) (execFaults : List Bool) : DB × Except AppError Unit :=
  if updates.isEmpty then (db, .ok ())
  else if beginFault then (db, .error .txFailure)
  else if prepFault then (db, .error .txFailure)
  else match batchExec db.rows updates execFaults with
    | none => (db, .error .txFailure)
    | some rows2 => ({ db with rows := rows2 }, .ok ())

/-- The fixed identifier alphabet of `internal/utils` (unambiguous
characters: no `l`, `o`, `I`, `O`, `0`, `1`). -/
def alphabet : String := "abcdefghijkmnpqrstuvwxyzABCDEFGHJKLMNPQRSTUVWXYZ23456789"

/-- `utils.GenerateShortCodeWithLength`.  `randomIndex` is the
`crypto/rand.Int(rand.Reader, alphabetLen)` oracle (one uniform index
per drawn symbol).  Go allocates `make([]byte, length)`, which panics
for a negative length — modelled as `none`; otherwise each byte is drawn
from the alphabet. -/
def GenerateShortCodeWithLength (randomIndex : Nat → Fin 56) (length : Int) : Option String :=
  if length < 0 then none
  else some (String.mk ((List.range length.toNat).map
    (fun i => alphabet.toList.get (Fin.cast (by decide) (randomIndex i)))))

/-- `utils.GenerateShortCode` draws `DefaultShortCodeLength = 6`
symbols. -/
def GenerateShortCode (randomIndex : Nat → Fin 56) : Option String :=
  GenerateShortCodeWithLength randomIndex 6

/-- Go's `unicode.IsSpace` (the `White_Space` property), used by
`strings.TrimSpace`. -/
def goIsSpace (c : Char) : Bool :=
  c == ' ' || c == '\t' || c == '\n' || c == '\r' || c.toNat == 11 || c.toNat == 12 ||
    c.toNat == 0x85 || c.toNat == 0xA0 || c.toNat == 0x1680 ||
    (0x2000 ≤ c.toNat && c.toNat ≤ 0x200A) || c.toNat == 0x2028 || c.toNat == 0x2029 ||
    c.toNat == 0x202F || c.toNat == 0x205F || c.toNat == 0x3000

/-- The rune filter inside `utils.SanitizeInput`: drop runes below 32
other than tab, LF and CR. -/
def keepRune (c : Char) : Bool :=
  !(c.toNat < 32 && c != '\t' && c != '\n' && c != '\r')

/-- `strings.TrimSpace` on a rune list. -/
def trimSpaceGo (l : List Char) : List Char :=
  ((l.dropWhile goIsSpace).reverse.dropWhile goIsSpace).reverse

/-- `utils.SanitizeInput`: `strings.Map` dropping control runes, then
`strings.TrimSpace`. -/
def SanitizeInput (input : String) : String :=
  String.mk (trimSpaceGo (input.toList.filter keepRune))

/-- A control byte in Go's `net/url` sense (`b < ' ' || b == 0x7f`);
`Parse` rejects any URL containing one. -/
def goIsCtl (c : Char) : Bool := c.toNat < 32 || c.toNat == 127

/-- Split a rune list at its first colon. -/
def splitFirstColon : List Char → Option (List Char × List Char)
  | [] => none
  | c :: rest =>
    if c = ':' then some ([], rest)
    else match splitFirstColon rest with
      | some (pre, post) => some (c :: pre, post)
      | none => none

/-- A scheme character after the first (`net/url.getScheme`). -/
def isSchemeChar (c : Char) : Bool := c.isAlpha || c.isDigit || c == '+' || c == '-' || c == '.'

/-- A valid scheme: a letter followed by scheme characters. -/
def isValidScheme : List Char → Bool
  | [] => false
  | c :: rest => c.isAlpha && rest.all isSchemeChar

/-- The non-alphanumeric characters Go accepts raw in a host
(`shouldEscape` with `encodeHost`). -/
def hostExtraChars : List Char :=
  ['-', '.', '_', '~', '!', '$', '&', '\'', '(', ')', '*', '+', ',', ';', '=', ':',
   '[', ']', '<', '>', '\"', '%']

/-- A character Go accepts in a host name. -/
def isHostChar (c : Char) : Bool := c.isAlpha || c.isDigit || hostExtraChars.contains c

/-- Split a rune list at its last colon (how `parseHost` finds the
optional port). -/
def splitLastColon (l : List Char) : List Char × Option (List Char) :=
  match splitFirstColon l.reverse with
  | some (revPort, revHost) => (revHost.reverse, some revPort.reverse)
  | none => (l, none)

/-- `net/url.validOptionalPort`: the digits after the final colon
(possibly none). -/
def validPort (p : List Char) : Bool := p.all Char.isDigit

/-- Host-character check of `parseHost`. -/
def checkHost (h : List Char) : Option (List Char) :=
  if h.all isHostChar then some h else none

/-- `net/url.parseHost` on the authority (bracketed IPv6 and userinfo
not modelled). -/
def parseHostGo (hostport : List Char) : Option (List Char) :=
  match splitLastColon hostport with
  | (host, some port) => if validPort port then checkHost host else none
  | (_, none) => checkHost hostport

/-- Modelled from the Go standard library: `net/url.Parse`, reduced to
the `(Scheme, Host)` pair `utils.ValidateURL` inspects.  `none` is a
parse error; `some ("", _)` covers the scheme-less shapes Go parses as
opaque or path-only URLs (which `ValidateURL` rejects either way). -/
def goURLParse (raw : String) : Option (String × String) :=
  let cs := raw.toList
  if cs.any goIsCtl then none
  else match splitFirstColon cs with
    | none => some ("", "")
    | some (sch, rest) =>
      if isValidScheme sch then
        match rest with
        | '/' :: '/' :: rest2 =>
          let hostport := rest2.takeWhile (fun c => !(c == '/' || c == '?' || c == '#'))
          match parseHostGo hostport with
          | some host => some (String.mk (sch.map Char.toLower), String.mk host)
          | none => none
        | _ => some (String.mk (sch.map Char.toLower), "")
      else none

/-- `utils.ValidateURL`: empty check, 2048-byte length cap, parse, then
scheme and host checks. -/
def ValidateURL (raw : String) : Except AppError Unit :=
  if raw = "" then .error (.validation "url" "URL cannot be empty")
  else if raw.utf8ByteSize > 2048 then
    .error (.validation "url" "URL is too long (max 2048 characters)")
  else match goURLParse raw with
    | none => .error (.validation "url" "invalid URL format")
    | some (scheme, host) =>
      if scheme ≠ "http" ∧ scheme ≠ "https" then
        .error (.validation "url" "URL must start with http:// or https://")
      else if host = "" then .error (.validation "url" "URL must contain a valid host")
      else .ok ()

/-- `model.URLResponse`. -/
structure URLResponse where
  id : Int
  shortCode : String
  originalURL : String
  shortURL : String
  clickCount : Int
  createdAt : Int
deriving DecidableEq, Repr

/-- The retry loop of `URLService.CreateShortURL`: up to the remaining
`fuel` attempts (`maxRetries = 5` at the top call), attempt index `i`
feeding the generator oracle; a generator error or a `ShortCodeExists`
conflict retries, remembering the last error; any other repository
error aborts; success builds the response.  Exhaustion returns the
`SHORT_CODE_GENERATION` business error carrying the last error. -/
def createLoop (baseURL : String) (gen : Nat → Option String) (sanitized : String)
    (now : Int) (fSet fStr : Bool) :
    SysState → Nat → Nat → Option AppError → SysState × Except AppError URLResponse
  | s, 0, _, lastErr =>
    (s, .error (match lastErr with
      | some e => .businessCaused "SHORT_CODE_GENERATION" e
      | none => .business "SHORT_CODE_GENERATION"))
  | s, fuel + 1, i, _ =>
    match gen i with
    | none => createLoop baseURL gen sanitized now fSet fStr s fuel (i + 1) (some .randFailure)
    | some code =>
      let u : URL :=
        { id := 0, originalURL := sanitized, shortCode := code, clickCount := 0, createdAt := now }
      match repoCreate s u fSet fStr with
      | (s2, .error .shortCodeExists) =>
        createLoop baseURL gen sanitized now fSet fStr s2 fuel (i + 1) (some .shortCodeExists)
      | (s2, .error e) => (s2, .error e)
      | (s2, .ok r) =>
        (s2, .ok { id := r.id, shortCode := code, originalURL := r.originalURL,
                   shortURL := baseURL ++ "/" ++ code, clickCount := u.clickCount,
                   createdAt := u.createdAt })

/-- `URLService.CreateShortURL`: validate, sanitize, then the retry
loop (`maxRetries = 5` from `NewURLService`). -/
def serviceCreateShortURL (baseURL : String) (gen : Nat → Option String) (s : SysState)
    (rawURL : String) (now : Int) (fSet fStr : Bool) : SysState × Except AppError URLResponse :=
  match ValidateURL rawURL with
  | .error e => (s, .error e)
  | .ok _ => createLoop baseURL gen (SanitizeInput rawURL) now fSet fStr s 5 0 none

/-- `URLService.GetOriginalURL`: reject the empty code, then resolve
through the repository and project the locator. -/
def serviceGetOriginalURL (s : SysState) (code : String) (fGet fSet fClk : Bool) :
    SysState × Except AppError String :=
  if code = "" then (s, .error (.validation "shortCode" "short code cannot be empty"))
  else match repoGetByShortCode s code fGet fSet fClk with
    | (s2, .error e) => (s2, .error e)
    | (s2, .ok u) => (s2, .ok u.originalURL)

/-- `URLService.GetURL`: the same resolve, returning the full
response. -/
def serviceGetURL (baseURL : String) (s : SysState) (code : String) (fGet fSet fClk : Bool) :
    SysState × Except AppError URLResponse :=
  if code = "" then (s, .error (.validation "shortCode" "short code cannot be empty"))
  else match repoGetByShortCode s code fGet fSet fClk with
    | (s2, .error e) => (s2, .error e)
    | (s2, .ok u) =>
      (s2, .ok { id := u.id, shortCode := u.shortCode, originalURL := u.originalURL,
                 shortURL := baseURL ++ "/" ++ u.shortCode, clickCount := u.clickCount,
                 createdAt := u.createdAt })

/-- `URLService.RecordClick`: reject the empty code, look the record up
(resolve semantics), then increment by the looked-up id. -/
def serviceRecordClick (s : SysState) (code : String) (fGet fSet fClk fClk2 fDel : Bool) :
    SysState × Except AppError Unit :=
  if code = "" then (s, .error (.validation "shortCode" "short code cannot be empty"))
  else match repoGetByShortCode s code fGet fSet fClk with
    | (s2, .error e) => (s2, .error e)
    | (s2, .ok u) => repoIncrementClickCount s2 u.id fClk2 fDel

/-- One externally driven operation on the system, with every cache
call succeeding (the reliable schedule): a `create` request (with its
generator oracle and clock), a resolve, or a usage recording. -/
inductive Op where
  | create (baseURL : String) (gen : Nat → Option String) (rawURL : String) (now : Int)
  | resolve (code : String)
  | record (code : String)

/-- The state transition of one operation (outputs discarded). -/
def applyOp (s : SysState) : Op → SysState
  | .create baseURL gen rawURL now => (serviceCreateShortURL baseURL gen s rawURL now false false).1
  | .resolve code => (repoGetByShortCode s code false false false).1
  | .record code => (serviceRecordClick s code false false false false false).1

/-- States reachable from the fresh system by the service operations. -/
inductive Reachable : SysState → Prop
  | init : Reachable initState
  | step (s : SysState) (op : Op) : Reachable s → Reachable (applyOp s op)

/-- Durable-store well-formedness: short codes unique (the `UNIQUE`
constraint), ids unique and below the next serial value. -/
def InvDB (db : DB) : Prop :=
  db.rows.Pairwise (fun a b => a.shortCode ≠ b.shortCode) ∧
  db.rows.Pairwise (fun a b => a.id ≠ b.id) ∧
  ∀ r ∈ db.rows, r.id < db.nextId

/-- Cache/store consistency for the mapping keyspace: every cached
record points at a real row with the same identity and immutable fields,
and a count no newer than the durable one. -/
def InvCacheURL (s : SysState) : Prop :=
  ∀ p ∈ s.cache.urls, ∃ row ∈ s.db.rows,
    row.shortCode = p.1 ∧ p.2.id = row.id ∧ p.2.shortCode = row.shortCode ∧
    p.2.originalURL = row.originalURL ∧ p.2.clickCount ≤ row.clickCount

/-- Reverse-index consistency: every non-empty cached code exists in
the store. -/
def InvCacheStr (s : SysState) : Prop :=
  ∀ p ∈ s.cache.strs, p.2 ≠ "" → ∃ row ∈ s.db.rows, row.shortCode = p.2

/-- The full system invariant. -/
def SysInv (s : SysState) : Prop :=
  InvDB s.db ∧ InvCacheURL s ∧ InvCacheStr s

/-- Rate-limiter state for one client key: the Redis counter value and
its absolute expiry time, if the key was ever created. -/
structure RLState where
  counter : Option (Int × Int)
deriving DecidableEq, Repr

/-- `RedisClient.IncrementRateLimit`: the pipelined `INCR` + `EXPIRE`.
A key is live while `now < expiresAt`; `INCR` resumes a live counter or
creates the key at 1; `EXPIRE` then unconditionally re-sets the expiry
to `now + window` — on every call, exactly as the Go pipeline issues
it.  A pipeline failure returns the error and is modelled as leaving
the key unchanged. -/
def IncrementRateLimit (st : RLState) (now window : Int) (fault : Bool) :
    RLState × Except CacheErr Int :=
  if fault then (st, .error .cacheFailure)
  else
    let live : Option Int :=
      match st.counter with
      | some (v, expiresAt) => if now < expiresAt then some v else none
      | none => none
    let v : Int := live.getD 0 + 1
    ({ counter := some (v, now + window) }, .ok v)

/-- A fresh rate-limiter key. -/
def rlInit : RLState := { counter := none }

/-- Whether a result is a success. -/
def exOk {ε α : Type} : Except ε α → Bool
  | .ok _ => true
  | .error _ => false

/-- Run a sequence of operations. -/
def runOps (s : SysState) (ops : List Op) : SysState := ops.foldl applyOp s

/-- `n` is a lower bound for every click count observable for `code`:
the durable row exists with count at least `n`, and any cached mapping
record for `code` also carries at least `n`. -/
def CountLB (s : SysState) (code : String) (n : Int) : Prop :=
  (∃ row, findByCode s.db.rows code = some row ∧ n ≤ row.clickCount) ∧
  (∀ v, cGet s.cache.urls code = some v → n ≤ v.clickCount)

/-- The system invariant is decidable, so concrete states can be
checked by `decide`. -/
instance (s : SysState) : Decidable (SysInv s) := by
  unfold SysInv InvDB InvCacheURL InvCacheStr
  infer_instance

/-! ### Association-list and row-lookup lemmas -/

theorem cGet_cPut_same {α : Type} (l : List (String × α)) (k : String) (v : α) :
    cGet (cPut l k v) k = some v := by
  simp [cPut, cGet]

theorem cGet_cPut_ne {α : Type} (l : List (String × α)) (k k2 : String) (v : α) (h : k ≠ k2) :
    cGet (cPut l k v) k2 = cGet l k2 := by
  simp [cPut, cGet, h]

theorem cGet_cDel_same {α : Type} (l : List (String × α)) (k : String) :
    cGet (cDel l k) k = none := by
  induction l with
  | nil => rfl
  | cons p ps ih =>
    by_cases h : p.1 = k <;> simp [cDel, cGet, h, ih]

theorem cGet_cDel_ne {α : Type} (l : List (String × α)) (k k2 : String) (h : k ≠ k2) :
    cGet (cDel l k) k2 = cGet l k2 := by
  induction l with
  | nil => rfl
  | cons p ps ih =>
    by_cases hp : p.1 = k
    · simp [cDel, cGet, hp, h, ih]
    · simp [cDel, cGet, hp, ih]

theorem cGet_mem {α : Type} {l : List (String × α)} {k : String} {v : α}
    (h : cGet l k = some v) : (k, v) ∈ l := by
  induction l with
  | nil => cases h
  | cons p ps ih =>
    by_cases hp : p.1 = k
    · simp [cGet, hp] at h
      have hkv : (k, v) = p := by rw [← hp, ← h]
      rw [hkv]
      exact List.mem_cons_self _ _
    · simp [cGet, hp] at h
      exact List.mem_cons_of_mem _ (ih h)

theorem findByCode_mem {rows : List URL} {code : String} {r : URL}
    (h : findByCode rows code = some r) : r ∈ rows ∧ r.shortCode = code := by
  induction rows with
  | nil => cases h
  | cons r0 rs ih =>
    by_cases h0 : r0.shortCode = code
    · simp [findByCode, h0] at h
      exact ⟨by rw [h]; exact List.mem_cons_self _ _, by rw [← h]; exact h0⟩
    · simp [findByCode, h0] at h
      exact ⟨List.mem_cons_of_mem _ (ih h).1, (ih h).2⟩

theorem findByCode_eq_none_iff {rows : List URL} {code : String} :
    findByCode rows code = none ↔ ∀ r ∈ rows, r.shortCode ≠ code := by
  induction rows with
  | nil => simp [findByCode]
  | cons r0 rs ih =>
    by_cases h0 : r0.shortCode = code <;> simp [findByCode, h0, ih]

theorem findByCode_append_left {rows rows2 : List URL} {code : String} {r : URL}
    (h : findByCode rows code = some r) : findByCode (rows ++ rows2) code = some r := by
  induction rows with
  | nil => cases h
  | cons r0 rs ih =>
    by_cases h0 : r0.shortCode = code <;> simp [findByCode, h0] at h ⊢
    · exact h
    · exact ih h

theorem findByCode_append_none {rows rows2 : List URL} {code : String}
    (h : findByCode rows code = none) :
    findByCode (rows ++ rows2) code = findByCode rows2 code := by
  induction rows with
  | nil => rfl
  | cons r0 rs ih =>
    by_cases h0 : r0.shortCode = code <;> simp [findByCode, h0] at h ⊢
    exact ih h

theorem findByCode_of_mem_unique {rows : List URL} {code : String} {r : URL}
    (hpw : rows.Pairwise (fun a b => a.shortCode ≠ b.shortCode))
    (hmem : r ∈ rows) (hcode : r.shortCode = code) : findByCode rows code = some r := by
  induction rows with
  | nil => cases hmem
  | cons r0 rs ih =>
    rw [List.pairwise_cons] at hpw
    rcases List.mem_cons.mp hmem with h | h
    · subst h
      simp [findByCode, hcode]
    · have hne : r0.shortCode ≠ code := by rw [← hcode]; exact hpw.1 r h
      simp [findByCode, hne]
      exact ih hpw.2 h

theorem findById_mem {rows : List URL} {i : Int} {r : URL}
    (h : findById rows i = some r) : r ∈ rows ∧ r.id = i := by
  induction rows with
  | nil => cases h
  | cons r0 rs ih =>
    by_cases h0 : r0.id = i
    · simp [findById, h0] at h
      exact ⟨by rw [h]; exact List.mem_cons_self _ _, by rw [← h]; exact h0⟩
    · simp [findById, h0] at h
      exact ⟨List.mem_cons_of_mem _ (ih h).1, (ih h).2⟩

theorem findById_of_mem_unique {rows : List URL} {i : Int} {r : URL}
    (hpw : rows.Pairwise (fun a b => a.id ≠ b.id))
    (hmem : r ∈ rows) (hid : r.id = i) : findById rows i = some r := by
  induction rows with
  | nil => cases hmem
  | cons r0 rs ih =>
    rw [List.pairwise_cons] at hpw
    rcases List.mem_cons.mp hmem with h | h
    · subst h
      simp [findById, hid]
    · have hne : r0.id ≠ i := by rw [← hid]; exact hpw.1 r h
      simp [findById, hne]
      exact ih hpw.2 h

theorem shortCode_bump (r : URL) (i : Int) :
    (if r.id = i then { r with clickCount := r.clickCount + 1 } else r).shortCode
      = r.shortCode := by
  by_cases h : r.id = i <;> simp [h]

theorem findByCode_bumpById (rows : List URL) (i : Int) (code : String) :
    findByCode (bumpById rows i) code
      = (findByCode rows code).map
          (fun r => if r.id = i then { r with clickCount := r.clickCount + 1 } else r) := by
  induction rows with
  | nil => rfl
  | cons r rs ih =>
    simp only [bumpById, List.map_cons, findByCode] at ih ⊢
    by_cases h : r.shortCode = code
    · rw [if_pos (by rw [shortCode_bump]; exact h), if_pos h]
      rfl
    · rw [if_neg (by rw [shortCode_bump]; exact h), if_neg h]
      exact ih

/-! ### Store-invariant preservation -/

theorem id_bump (r : URL) (i : Int) :
    (if r.id = i then { r with clickCount := r.clickCount + 1 } else r).id = r.id := by
  by_cases h : r.id = i <;> simp [h]

theorem clickCount_bump_ge (r : URL) (i : Int) :
    r.clickCount ≤ (if r.id = i then { r with clickCount := r.clickCount + 1 } else r).clickCount := by
  by_cases h : r.id = i <;> simp [h]

theorem invDB_init : InvDB initState.db :=
  ⟨List.Pairwise.nil, List.Pairwise.nil, by intro r hr; cases hr⟩

theorem invDB_dbCreate (db : DB) (u : URL) (h : InvDB db) : InvDB (dbCreate db u).1 := by
  obtain ⟨h1, h2, h3⟩ := h
  cases hf : findByCode db.rows u.shortCode with
  | some r => simp only [dbCreate, hf]; exact ⟨h1, h2, h3⟩
  | none =>
    simp only [dbCreate, hf]
    refine ⟨?_, ?_, ?_⟩
    · rw [List.pairwise_append]
      refine ⟨h1, List.pairwise_singleton _ _, ?_⟩
      intro a ha b hb
      simp only [List.mem_singleton] at hb
      subst hb
      exact findByCode_eq_none_iff.mp hf a ha
    · rw [List.pairwise_append]
      refine ⟨h2, List.pairwise_singleton _ _, ?_⟩
      intro a ha b hb
      simp only [List.mem_singleton] at hb
      subst hb
      show a.id ≠ db.nextId
      exact ne_of_lt (h3 a ha)
    · intro r hr
      rcases List.mem_append.mp hr with hm | hm
      · exact lt_trans (h3 r hm) (lt_add_one _)
      · simp only [List.mem_singleton] at hm
        subst hm
        exact lt_add_one _
  
theorem invDB_bumpById (db : DB) (i : Int) (h : InvDB db) :
    InvDB { db with rows := bumpById db.rows i } := by
  obtain ⟨h1, h2, h3⟩ := h
  refine ⟨?_, ?_, ?_⟩
  · rw [bumpById]
    show (db.rows.map _).Pairwise _
    rw [List.pairwise_map]
    refine h1.imp ?_
    intro a b hab
    rw [shortCode_bump, shortCode_bump]
    exact hab
  · rw [bumpById]
    show (db.rows.map _).Pairwise _
    rw [List.pairwise_map]
    refine h2.imp ?_
    intro a b hab
    rw [id_bump, id_bump]
    exact hab
  · intro r hr
    rw [bumpById] at hr
    rcases List.mem_map.mp hr with ⟨a, ha, hfa⟩
    show r.id < db.nextId
    rw [← hfa, id_bump]
    exact h3 a ha

theorem repoGet_db (s : SysState) (code : String) (f1 f2 f3 : Bool) :
    (repoGetByShortCode s code f1 f2 f3).1.db = s.db := by
  unfold repoGetByShortCode
  split
  · rfl
  · split
    · rfl
    · rfl

theorem invDB_repoCreate (s : SysState) (u : URL) (f1 f2 : Bool) (h : InvDB s.db) :
    InvDB (repoCreate s u f1 f2).1.db := by
  have hd := invDB_dbCreate s.db u h
  rcases hd2 : dbCreate s.db u with ⟨db2, res⟩
  rw [hd2] at hd
  cases res with
  | error e => simp only [repoCreate, hd2]; exact hd
  | ok r => simp only [repoCreate, hd2]; exact hd

theorem invDB_repoIncrement (s : SysState) (i : Int) (f1 f2 : Bool) (h : InvDB s.db) :
    InvDB (repoIncrementClickCount s i f1 f2).1.db := by
  unfold repoIncrementClickCount
  split
  · exact h
  · exact invDB_bumpById s.db i h

theorem invDB_createLoop (baseURL : String) (gen : Nat → Option String) (san : String)
    (now : Int) (f1 f2 : Bool) :
    ∀ (fuel i : Nat) (lastErr : Option AppError) (s : SysState), InvDB s.db →
      InvDB (createLoop baseURL gen san now f1 f2 s fuel i lastErr).1.db := by
  intro fuel
  induction fuel with
  | zero =>
    intro i lastErr s h
    simpa [createLoop] using h
  | succ n ih =>
    intro i lastErr s h
    rcases hg : gen i with _ | code
    · simp only [createLoop, hg]
      exact ih _ _ s h
    · rcases hc : repoCreate s
        { id := 0, originalURL := san, shortCode := code, clickCount := 0, createdAt := now }
        f1 f2 with ⟨s2, res⟩
      have h2 : InvDB s2.db := by
        have hh := invDB_repoCreate s
          { id := 0, originalURL := san, shortCode := code, clickCount := 0, createdAt := now }
          f1 f2 h
        rw [hc] at hh
        exact hh
      cases res with
      | error e =>
        cases e <;> simp only [createLoop, hg, hc] <;>
          first
            | exact ih _ _ s2 h2
            | exact h2
      | ok r =>
        simp only [createLoop, hg, hc]
        exact h2

theorem invDB_serviceCreate (baseURL : String) (gen : Nat → Option String) (s : SysState)
    (rawURL : String) (now : Int) (f1 f2 : Bool) (h : InvDB s.db) :
    InvDB (serviceCreateShortURL baseURL gen s rawURL now f1 f2).1.db := by
  unfold serviceCreateShortURL
  split
  · exact h
  · exact invDB_createLoop baseURL gen (SanitizeInput rawURL) now f1 f2 5 0 none s h

theorem invDB_serviceRecordClick (s : SysState) (code : String) (f1 f2 f3 f4 f5 : Bool)
    (h : InvDB s.db) : InvDB (serviceRecordClick s code f1 f2 f3 f4 f5).1.db := by
  unfold serviceRecordClick
  split
  · exact h
  · rcases hg : repoGetByShortCode s code f1 f2 f3 with ⟨s2, res⟩
    have h2 : InvDB s2.db := by
      have hdb := repoGet_db s code f1 f2 f3
      rw [hg] at hdb
      show InvDB s2.db
      rw [show s2.db = s.db from hdb]
      exact h
    cases res with
    | error e => simp only [hg]; exact h2
    | ok u =>
      simp only [hg]
      exact invDB_repoIncrement s2 u.id f4 f5 h2

theorem invDB_applyOp (s : SysState) (op : Op) (h : InvDB s.db) : InvDB (applyOp s op).db := by
  cases op with
  | create baseURL gen rawURL now => exact invDB_serviceCreate baseURL gen s rawURL now false false h
  | resolve code =>
    show InvDB (repoGetByShortCode s code false false false).1.db
    rw [repoGet_db]
    exact h
  | record code => exact invDB_serviceRecordClick s code false false false false false h

theorem reachable_invDB (s : SysState) (h : Reachable s) : InvDB s.db := by
  induction h with
  | init => exact invDB_init
  | step s2 op hs ih => exact invDB_applyOp s2 op ih

/-! ### Click-count lower-bound lemmas -/

theorem urls_cacheSetStr_false (c : CacheSt) (k v : String) :
    (cacheSetStr c k v false).urls = c.urls := rfl

theorem urls_cacheSetClicks_false (c : CacheSt) (k : String) (v : Int) :
    (cacheSetClicks c k v false).urls = c.urls := rfl

theorem urls_cacheSetURL_false (c : CacheSt) (k : String) (v : URL) :
    (cacheSetURL c k v false).urls = cPut c.urls k v := rfl

theorem urls_cacheDelURL_false (c : CacheSt) (k : String) :
    (cacheDelURL c k false).urls = cDel c.urls k := rfl

theorem countLB_resolve_establish (s : SysState) (code : String) (s1 : SysState) (r : URL)
    (hInv : SysInv s)
    (h : repoGetByShortCode s code false false false = (s1, .ok r)) :
    CountLB s1 code r.clickCount := by
  obtain ⟨⟨hpw, _, _⟩, hurl, _⟩ := hInv
  unfold repoGetByShortCode at h
  cases hc : cGet s.cache.urls code with
  | some v =>
    simp only [cacheGetURL, if_neg Bool.false_ne_true, hc] at h
    obtain ⟨hs1, hr⟩ := Prod.mk.injEq .. ▸ h
    have hv : v = r := Except.ok.injEq .. ▸ hr
    subst hs1
    subst hv
    obtain ⟨rowx, hmem, hsc, hid, hscv, hourl, hcount⟩ := hurl (code, v) (cGet_mem hc)
    constructor
    · exact ⟨rowx, findByCode_of_mem_unique hpw hmem hsc, hcount⟩
    · intro v2 hv2
      rw [hc] at hv2
      have hveq : v2 = v := (Option.some.injEq .. ▸ hv2).symm
      rw [hveq]
  | none =>
    simp only [cacheGetURL, if_neg Bool.false_ne_true, hc] at h
    cases hf : findByCode s.db.rows code with
    | none =>
      rw [hf] at h
      simp at h
    | some row =>
      rw [hf] at h
      obtain ⟨hs1, hr⟩ := Prod.mk.injEq .. ▸ h
      have hv : row = r := Except.ok.injEq .. ▸ hr
      subst hv
      constructor
      · refine ⟨row, ?_, le_refl _⟩
        rw [← hs1]
        exact hf
      · intro v2 hv2
        rw [← hs1] at hv2
        simp only [urls_cacheSetClicks_false, urls_cacheSetURL_false] at hv2
        rw [cGet_cPut_same] at hv2
        have hveq : v2 = row := (Option.some.injEq .. ▸ hv2).symm
        rw [hveq]

theorem countLB_repoCreate_false (s : SysState) (u : URL) (code : String) (n : Int)
    (h : CountLB s code n) : CountLB (repoCreate s u false false).1 code n := by
  obtain ⟨⟨row, hfind, hle⟩, hcache⟩ := h
  cases hf : findByCode s.db.rows u.shortCode with
  | some r0 =>
    simp only [repoCreate, dbCreate, hf]
    exact ⟨⟨row, hfind, hle⟩, hcache⟩
  | none =>
    have hne : u.shortCode ≠ code := by
      intro hEq
      rw [hEq, hfind] at hf
      cases hf
    simp only [repoCreate, dbCreate, hf]
    constructor
    · exact ⟨row, findByCode_append_left hfind, hle⟩
    · intro v hv
      apply hcache
      simp only [urls_cacheSetStr_false, urls_cacheSetURL_false] at hv
      rw [cGet_cPut_ne _ _ _ _ hne] at hv
      exact hv

theorem countLB_repoGet_false (s : SysState) (code2 code : String) (n : Int)
    (h : CountLB s code n) : CountLB (repoGetByShortCode s code2 false false false).1 code n := by
  obtain ⟨⟨row, hfind, hle⟩, hcache⟩ := h
  unfold repoGetByShortCode
  cases hc : cGet s.cache.urls code2 with
  | some v =>
    simp only [cacheGetURL, if_neg Bool.false_ne_true, hc]
    exact ⟨⟨row, hfind, hle⟩, hcache⟩
  | none =>
    simp only [cacheGetURL, if_neg Bool.false_ne_true, hc]
    cases hf : findByCode s.db.rows code2 with
    | none => exact ⟨⟨row, hfind, hle⟩, hcache⟩
    | some row2 =>
      constructor
      · exact ⟨row, hfind, hle⟩
      · intro v hv
        simp only [urls_cacheSetClicks_false, urls_cacheSetURL_false] at hv
        by_cases hcc : code2 = code
        · subst hcc
          rw [cGet_cPut_same] at hv
          have hv2 : row2 = v := Option.some.injEq .. ▸ hv
          have hrr : row2 = row := by
            rw [hfind] at hf
            exact (Option.some.injEq .. ▸ hf).symm
          rw [← hv2, hrr]
          exact hle
        · rw [cGet_cPut_ne _ _ _ _ hcc] at hv
          exact hcache v hv

theorem countLB_repoIncrement_false (s : SysState) (i : Int) (code : String) (n : Int)
    (h : CountLB s code n) : CountLB (repoIncrementClickCount s i false false).1 code n := by
  obtain ⟨⟨row, hfind, hle⟩, hcache⟩ := h
  unfold repoIncrementClickCount
  cases hf : findById s.db.rows i with
  | none => exact ⟨⟨row, hfind, hle⟩, hcache⟩
  | some rowi =>
    constructor
    · refine ⟨if row.id = i then { row with clickCount := row.clickCount + 1 } else row, ?_, ?_⟩
      · show findByCode (bumpById s.db.rows i) code = _
        rw [findByCode_bumpById, hfind]
        rfl
      · exact le_trans hle (clickCount_bump_ge row i)
    · intro v hv
      simp only [urls_cacheDelURL_false, urls_cacheSetClicks_false] at hv
      by_cases hcc : rowi.shortCode = code
      · rw [hcc, cGet_cDel_same] at hv
        cases hv
      · rw [cGet_cDel_ne _ _ _ hcc] at hv
        exact hcache v hv

theorem countLB_createLoop_false (baseURL : String) (gen : Nat → Option String) (san : String)
    (now : Int) (code : String) (n : Int) :
    ∀ (fuel i : Nat) (lastErr : Option AppError) (s : SysState), CountLB s code n →
      CountLB (createLoop baseURL gen san now false false s fuel i lastErr).1 code n := by
  intro fuel
  induction fuel with
  | zero =>
    intro i lastErr s h
    simpa [createLoop] using h
  | succ m ih =>
    intro i lastErr s h
    rcases hg : gen i with _ | c
    · simp only [createLoop, hg]
      exact ih _ _ s h
    · rcases hc : repoCreate s
        { id := 0, originalURL := san, shortCode := c, clickCount := 0, createdAt := now }
        false false with ⟨s2, res⟩
      have h2 : CountLB s2 code n := by
        have hh := countLB_repoCreate_false s
          { id := 0, originalURL := san, shortCode := c, clickCount := 0, createdAt := now }
          code n h
        rw [hc] at hh
        exact hh
      cases res with
      | error e =>
        cases e <;> simp only [createLoop, hg, hc] <;>
          first
            | exact ih _ _ s2 h2
            | exact h2
      | ok r =>
        simp only [createLoop, hg, hc]
        exact h2

theorem countLB_serviceCreate_false (baseURL : String) (gen : Nat → Option String) (s : SysState)
    (rawURL : String) (now : Int) (code : String) (n : Int) (h : CountLB s code n) :
    CountLB (serviceCreateShortURL baseURL gen s rawURL now false false).1 code n := by
  unfold serviceCreateShortURL
  split
  · exact h
  · exact countLB_createLoop_false baseURL gen (SanitizeInput rawURL) now code n 5 0 none s h

theorem countLB_serviceRecordClick_false (s : SysState) (code2 code : String) (n : Int)
    (h : CountLB s code n) :
    CountLB (serviceRecordClick s code2 false false false false false).1 code n := by
  unfold serviceRecordClick
  split
  · exact h
  · rcases hg : repoGetByShortCode s code2 false false false with ⟨s2, res⟩
    have h2 : CountLB s2 code n := by
      have hh := countLB_repoGet_false s code2 code n h
      rw [hg] at hh
      exact hh
    cases res with
    | error e => simp only [hg]; exact h2
    | ok u =>
      simp only [hg]
      exact countLB_repoIncrement_false s2 u.id code n h2

theorem countLB_applyOp (s : SysState) (op : Op) (code : String) (n : Int)
    (h : CountLB s code n) : CountLB (applyOp s op) code n := by
  cases op with
  | create baseURL gen rawURL now => exact countLB_serviceCreate_false baseURL gen s rawURL now code n h
  | resolve code2 => exact countLB_repoGet_false s code2 code n h
  | record code2 => exact countLB_serviceRecordClick_false s code2 code n h

theorem countLB_runOps (ops : List Op) :
    ∀ (s : SysState) (code : String) (n : Int), CountLB s code n → CountLB (runOps s ops) code n := by
  induction ops with
  | nil => intro s code n h; simpa [runOps] using h
  | cons op rest ih =>
    intro s code n h
    show CountLB ((op :: rest).foldl applyOp s) code n
    rw [List.foldl_cons]
    exact ih _ code n (countLB_applyOp s op code n h)

theorem countLB_resolve_le (s : SysState) (code : String) (n : Int) (f1 f2 f3 : Bool) (r : URL)
    (h : CountLB s code n) (hres : (repoGetByShortCode s code f1 f2 f3).2 = .ok r) :
    n ≤ r.clickCount := by
  obtain ⟨⟨row, hfind, hle⟩, hcache⟩ := h
  unfold repoGetByShortCode at hres
  cases hcg : cacheGetURL s.cache code f1 with
  | ok v =>
    rw [hcg] at hres
    have hv : v = r := Except.ok.injEq .. ▸ hres
    have hv2 : cGet s.cache.urls code = some v := by
      unfold cacheGetURL at hcg
      cases hf1 : f1 with
      | true => rw [hf1] at hcg; cases hcg
      | false =>
        rw [hf1] at hcg
        simp only [if_neg Bool.false_ne_true] at hcg
        cases hc : cGet s.cache.urls code with
        | some v2 =>
          rw [hc] at hcg
          have hveq : Except.ok (ε := CacheErr) v2 = Except.ok v := hcg
          cases hveq
          rfl
        | none => rw [hc] at hcg; cases hcg
    rw [← hv]
    exact hcache v hv2
  | error e =>
    rw [hcg] at hres
    rw [hfind] at hres
    simp only at hres
    have hv : row = r := Except.ok.injEq .. ▸ hres
    rw [← hv]
    exact hle

/-! ### Claim theorems -/

/-- C1: in every reachable durable-store state no two mapping records
share a `shortCode`, and a `Create` attempted with a `shortCode`
already present fails with the conflict signal (`ErrShortCodeExists`)
and leaves the store unchanged — so of two creators racing on the same
generated code, the second conditional insert can only conflict. -/
theorem shortCode_unique_and_conflict_safe (s : SysState) (h : Reachable s) (u : URL)
    (hdup : (findByCode s.db.rows u.shortCode).isSome = true) :
    s.db.rows.Pairwise (fun a b => a.shortCode ≠ b.shortCode) ∧
    dbCreate s.db u = (s.db, .error .shortCodeExists) := by
  refine ⟨(reachable_invDB s h).1, ?_⟩
  cases hf : findByCode s.db.rows u.shortCode with
  | none => rw [hf] at hdup; cases hdup
  | some r => simp only [dbCreate, hf]

/-- Witness for C1 at a concrete reachable state holding `abc123`. -/
theorem shortCode_unique_and_conflict_safe_witness :
    (applyOp initState
        (.create "http://localhost:8080" (fun _ => some "abc123") "https://example.com" 0)).db.rows.Pairwise
      (fun a b => a.shortCode ≠ b.shortCode) ∧
    dbCreate
        (applyOp initState
          (.create "http://localhost:8080" (fun _ => some "abc123") "https://example.com" 0)).db
        { id := 0, originalURL := "https://other.com", shortCode := "abc123", clickCount := 0,
          createdAt := 3 }
      = ((applyOp initState
            (.create "http://localhost:8080" (fun _ => some "abc123") "https://example.com" 0)).db,
         .error .shortCodeExists) :=
  shortCode_unique_and_conflict_safe _
    (Reachable.step _ _ Reachable.init) _ (by decide)

/-- C10: the identifier generator returns the empty code for length 0,
is total with codes of exactly the requested length drawn from the
56-character alphabet for every non-negative length, and panics
(modelled as `none`, from the out-of-range `make([]byte, length)`) for
every negative length. -/
theorem generator_total_on_nonnegative_lengths (randomIndex : Nat → Fin 56) :
    GenerateShortCodeWithLength randomIndex 0 = some "" ∧
    (∀ n : Int, 0 ≤ n → (GenerateShortCodeWithLength randomIndex n).isSome = true) ∧
    (∀ n : Int, 0 ≤ n → ∀ code, GenerateShortCodeWithLength randomIndex n = some code →
      code.length = n.toNat ∧ ∀ c ∈ code.toList, c ∈ alphabet.toList) ∧
    (∀ n : Int, n < 0 → GenerateShortCodeWithLength randomIndex n = none) ∧
    alphabet.toList.length = 56 := by
  refine ⟨?_, ?_, ?_, ?_, by decide⟩
  · rfl
  · intro n hn
    rw [GenerateShortCodeWithLength, if_neg (not_lt.mpr hn)]
    rfl
  · intro n hn code hcode
    rw [GenerateShortCodeWithLength, if_neg (not_lt.mpr hn)] at hcode
    have hc : String.mk ((List.range n.toNat).map
        (fun i => alphabet.toList.get (Fin.cast (by decide) (randomIndex i)))) = code :=
      Option.some.injEq .. ▸ hcode
    constructor
    · rw [← hc]
      show (List.map _ (List.range n.toNat)).length = n.toNat
      rw [List.length_map, List.length_range]
    · intro c hcmem
      rw [← hc] at hcmem
      have hcmem2 : c ∈ (List.range n.toNat).map
          (fun i => alphabet.toList.get (Fin.cast (by decide) (randomIndex i))) := hcmem
      rcases List.mem_map.mp hcmem2 with ⟨i, hi, hgi⟩
      rw [← hgi]
      exact List.get_mem _ _ _
  · intro n hn
    rw [GenerateShortCodeWithLength, if_pos hn]

/-- Witness for C10: length 0 gives the empty code; length −1 panics. -/
theorem generator_total_on_nonnegative_lengths_witness :
    GenerateShortCodeWithLength (fun _ => (⟨0, by decide⟩ : Fin 56)) 0 = some "" ∧
    GenerateShortCodeWithLength (fun _ => (⟨0, by decide⟩ : Fin 56)) (-1) = none ∧
    (GenerateShortCodeWithLength (fun _ => (⟨0, by decide⟩ : Fin 56)) 6).isSome = true :=
  ⟨(generator_total_on_nonnegative_lengths _).1,
   (generator_total_on_nonnegative_lengths _).2.2.2.1 (-1) (by decide),
   (generator_total_on_nonnegative_lengths _).2.1 6 (by decide)⟩

/-- C6 (evaluation at the failing input): the rate-limiter pipeline
re-sets the expiry on every increment.  With window 10, a counter
created at time 0 (expiry 10) and incremented at time 9 ends with
expiry 19 — extended, where the claim requires it unchanged at 10 — so
an increment at time 10, after a full window from creation has elapsed,
still returns 3 instead of restarting from 1. -/
theorem rateLimit_resets_expiry_on_every_increment :
    IncrementRateLimit rlInit 0 10 false = ({ counter := some (1, 10) }, .ok 1) ∧
    IncrementRateLimit { counter := some (1, 10) } 9 10 false
      = ({ counter := some (2, 19) }, .ok 2) ∧
    IncrementRateLimit { counter := some (2, 19) } 10 10 false
      = ({ counter := some (3, 20) }, .ok 3) ∧
    (19 : Int) ≠ 10 ∧ (3 : Int) ≠ 1 := by
  exact ⟨by decide, by decide, by decide, by decide, by decide⟩

/-- The batch loop applies every increment when no exec call fails. -/
theorem batchExec_all_false :
    ∀ (updates : List (String × Int)) (rows : List URL) (faults : List Bool),
      (∀ b ∈ faults, b = false) →
      batchExec rows updates faults
        = some (updates.foldl (fun acc p => applyInc acc p.1 p.2) rows) := by
  intro updates
  induction updates with
  | nil => intro rows faults h; rfl
  | cons p rest ih =>
    intro rows faults h
    have hhead : faults.headD false = false := by
      cases faults with
      | nil => rfl
      | cons b bs => exact h b (List.mem_cons_self _ _)
    rcases p with ⟨code, inc⟩
    show (if faults.headD false = true then none
          else batchExec (applyInc rows code inc) rest faults.tail) = _
    rw [hhead, if_neg Bool.false_ne_true]
    rw [ih (applyInc rows code inc) faults.tail
      (fun b hb => h b (List.mem_of_mem_tail hb))]
    rfl

/-- C8: the batch counter flush is all-or-nothing inside one
transaction: an empty batch succeeds without touching the store, any
begin/prepare/exec failure returns an error with the store unchanged
(rollback), and when every statement succeeds all increments are
applied (commit). -/
theorem batch_flush_all_or_nothing (db : DB) (updates : List (String × Int))
    (beginFault prepFault : Bool) (execFaults : List Bool) :
    (updates = [] →
      batchIncrementClickCount db updates beginFault prepFault execFaults = (db, .ok ())) ∧
    (∀ db2 e, batchIncrementClickCount db updates beginFault prepFault execFaults
        = (db2, .error e) → db2 = db) ∧
    (beginFault = false → prepFault = false → (∀ b ∈ execFaults, b = false) →
      batchIncrementClickCount db updates beginFault prepFault execFaults
        = ({ db with rows := updates.foldl (fun acc p => applyInc acc p.1 p.2) db.rows },
           .ok ())) := by
  refine ⟨?_, ?_, ?_⟩
  · intro h
    subst h
    rfl
  · intro db2 e heq
    unfold batchIncrementClickCount at heq
    split at heq
    · obtain ⟨h1, h2⟩ := Prod.mk.injEq .. ▸ heq
      cases h2
    · split at heq
      · obtain ⟨h1, h2⟩ := Prod.mk.injEq .. ▸ heq
        exact h1.symm
      · split at heq
        · obtain ⟨h1, h2⟩ := Prod.mk.injEq .. ▸ heq
          exact h1.symm
        · split at heq
          · obtain ⟨h1, h2⟩ := Prod.mk.injEq .. ▸ heq
            exact h1.symm
          · obtain ⟨h1, h2⟩ := Prod.mk.injEq .. ▸ heq
            cases h2
  · intro hb hp hf
    subst hb
    subst hp
    cases updates with
    | nil => rfl
    | cons p rest =>
      unfold batchIncrementClickCount
      rw [batchExec_all_false (p :: rest) db.rows execFaults hf]
      rfl

/-- Witness for C8: a two-row store, a successful batch, a failing
batch, and the empty batch. -/
theorem batch_flush_all_or_nothing_witness :
    batchIncrementClickCount { rows := [], nextId := 1 } [] false false [] 
      = ({ rows := [], nextId := 1 }, .ok ()) ∧
    (batchIncrementClickCount
        { rows := [{ id := 1, originalURL := "https://a", shortCode := "a1", clickCount := 0,
                     createdAt := 0 }], nextId := 2 }
        [("a1", 2)] false false [true]).1
      = { rows := [{ id := 1, originalURL := "https://a", shortCode := "a1", clickCount := 0,
                     createdAt := 0 }], nextId := 2 } ∧
    batchIncrementClickCount
        { rows := [{ id := 1, originalURL := "https://a", shortCode := "a1", clickCount := 0,
                     createdAt := 0 }], nextId := 2 }
        [("a1", 2)] false false [false]
      = ({ rows := [{ id := 1, originalURL := "https://a", shortCode := "a1", clickCount := 2,
                      createdAt := 0 }], nextId := 2 }, .ok ()) := by
  refine ⟨(batch_flush_all_or_nothing _ _ _ _ _).1 rfl, ?_, ?_⟩
  · exact (batch_flush_all_or_nothing
      { rows := [{ id := 1, originalURL := "https://a", shortCode := "a1", clickCount := 0,
                   createdAt := 0 }], nextId := 2 }
      [("a1", 2)] false false [true]).2.1 _ .txFailure (by decide)
  · exact ((batch_flush_all_or_nothing
      { rows := [{ id := 1, originalURL := "https://a", shortCode := "a1", clickCount := 0,
                   createdAt := 0 }], nextId := 2 }
      [("a1", 2)] false false [false]).2.2 rfl rfl (by decide)).trans (by decide)

/-- One conflicting attempt of the retry loop: a generated code already
present in the store makes the conditional insert fail with
`ErrShortCodeExists`, and the loop retries with the system state
unchanged. -/
theorem createLoop_conflict_step (baseURL : String) (gen : Nat → Option String) (san : String)
    (now : Int) (f1 f2 : Bool) (s : SysState) (m i : Nat) (lastErr : Option AppError)
    (c : String) (r : URL) (hg : gen i = some c) (hr : findByCode s.db.rows c = some r) :
    createLoop baseURL gen san now f1 f2 s (m + 1) i lastErr
      = createLoop baseURL gen san now f1 f2 s m (i + 1) (some .shortCodeExists) := by
  simp only [createLoop, hg, repoCreate, dbCreate, hr]

/-- C2: when the generated code collides with an existing record on
every one of the `maxRetries = 5` attempts, `CreateShortURL` returns
the distinct `SHORT_CODE_GENERATION` business error (carrying the last
conflict as its cause) and leaves the whole system — in particular the
durable store — unchanged: no partial mapping record remains. -/
theorem create_exhaustion_returns_generation_error (baseURL : String) (gen : Nat → Option String)
    (s : SysState) (rawURL : String) (now : Int) (fSet fStr : Bool)
    (hval : ValidateURL rawURL = .ok ())
    (hgen : ∀ i, i < 5 → ∃ c, gen i = some c ∧ (findByCode s.db.rows c).isSome = true) :
    serviceCreateShortURL baseURL gen s rawURL now fSet fStr
      = (s, .error (.businessCaused "SHORT_CODE_GENERATION" .shortCodeExists)) := by
  obtain ⟨c0, hg0, hf0⟩ := hgen 0 (by norm_num)
  obtain ⟨c1, hg1, hf1⟩ := hgen 1 (by norm_num)
  obtain ⟨c2, hg2, hf2⟩ := hgen 2 (by norm_num)
  obtain ⟨c3, hg3, hf3⟩ := hgen 3 (by norm_num)
  obtain ⟨c4, hg4, hf4⟩ := hgen 4 (by norm_num)
  obtain ⟨r0, hr0⟩ := Option.isSome_iff_exists.mp hf0
  obtain ⟨r1, hr1⟩ := Option.isSome_iff_exists.mp hf1
  obtain ⟨r2, hr2⟩ := Option.isSome_iff_exists.mp hf2
  obtain ⟨r3, hr3⟩ := Option.isSome_iff_exists.mp hf3
  obtain ⟨r4, hr4⟩ := Option.isSome_iff_exists.mp hf4
  simp only [serviceCreateShortURL, hval]
  rw [createLoop_conflict_step baseURL gen (SanitizeInput rawURL) now fSet fStr s 4 0 none
      c0 r0 hg0 hr0,
    createLoop_conflict_step baseURL gen (SanitizeInput rawURL) now fSet fStr s 3 1 _
      c1 r1 hg1 hr1,
    createLoop_conflict_step baseURL gen (SanitizeInput rawURL) now fSet fStr s 2 2 _
      c2 r2 hg2 hr2,
    createLoop_conflict_step baseURL gen (SanitizeInput rawURL) now fSet fStr s 1 3 _
      c3 r3 hg3 hr3,
    createLoop_conflict_step baseURL gen (SanitizeInput rawURL) now fSet fStr s 0 4 _
      c4 r4 hg4 hr4]
  rfl

/-- Witness for C2: a generator stuck on an occupied code exhausts all
five attempts. -/
theorem create_exhaustion_returns_generation_error_witness :
    serviceCreateShortURL "http://localhost:8080" (fun _ => some "abc123")
        (applyOp initState
          (.create "http://localhost:8080" (fun _ => some "abc123") "https://example.com" 0))
        "https://example2.com" 5 false false
      = (applyOp initState
           (.create "http://localhost:8080" (fun _ => some "abc123") "https://example.com" 0),
         .error (.businessCaused "SHORT_CODE_GENERATION" .shortCodeExists)) :=
  create_exhaustion_returns_generation_error _ _ _ _ _ _ _ (by decide)
    (fun _ _ => ⟨"abc123", rfl, by decide⟩)

theorem urls_cacheSetStr_any (c : CacheSt) (k v : String) (f : Bool) :
    (cacheSetStr c k v f).urls = c.urls := by
  cases f <;> rfl

/-- A successful conditional insert: the code was absent, the row is
appended with the next serial id and the column-default count 0, the
returned struct carries the new id, and (when the mapping-cache write
is not faulted) the record is cached under its code. -/
theorem repoCreate_ok_shape (s : SysState) (u : URL) (f1 f2 : Bool) (s3 : SysState) (r : URL)
    (h : repoCreate s u f1 f2 = (s3, .ok r)) :
    r = { u with id := s.db.nextId } ∧
    findByCode s.db.rows u.shortCode = none ∧
    s3.db.rows = s.db.rows ++ [{ u with id := s.db.nextId, clickCount := 0 }] ∧
    (f1 = false → cGet s3.cache.urls u.shortCode = some { u with id := s.db.nextId }) := by
  unfold repoCreate dbCreate at h
  cases hf : findByCode s.db.rows u.shortCode with
  | some r0 =>
    rw [hf] at h
    simp only at h
    obtain ⟨h1, h2⟩ := Prod.mk.injEq .. ▸ h
    cases h2
  | none =>
    rw [hf] at h
    simp only at h
    obtain ⟨hs3, hr⟩ := Prod.mk.injEq .. ▸ h
    have hre : ({ u with id := s.db.nextId } : URL) = r := Except.ok.injEq .. ▸ hr
    refine ⟨hre.symm, rfl, ?_, ?_⟩
    · rw [← hs3]
    · intro hf1
      rw [← hs3]
      subst hf1
      show cGet (cacheSetStr _ _ _ f2).urls u.shortCode = _
      rw [urls_cacheSetStr_any]
      show cGet (cPut s.cache.urls u.shortCode { u with id := s.db.nextId }) u.shortCode = _
      rw [cGet_cPut_same]

/-- A successful pass through the retry loop: the response's code came
from the generator, the stored row and the response both carry the
sanitized locator, and with an unfaulted mapping-cache write the new
record sits in the cache under the response's code. -/
theorem createLoop_ok_shape (baseURL : String) (gen : Nat → Option String) (san : String)
    (now : Int) (f1 f2 : Bool) :
    ∀ (fuel i : Nat) (lastErr : Option AppError) (s s2 : SysState) (resp : URLResponse),
      createLoop baseURL gen san now f1 f2 s fuel i lastErr = (s2, .ok resp) →
      ∃ j row,
        gen j = some resp.shortCode ∧
        resp.originalURL = san ∧
        findByCode s2.db.rows resp.shortCode = some row ∧
        row.originalURL = san ∧
        (f1 = false →
          ∃ rc, cGet s2.cache.urls resp.shortCode = some rc ∧ rc.originalURL = san) := by
  intro fuel
  induction fuel with
  | zero =>
    intro i lastErr s s2 resp h
    simp [createLoop] at h
  | succ m ih =>
    intro i lastErr s s2 resp h
    rcases hg : gen i with _ | c
    · simp only [createLoop, hg] at h
      exact ih _ _ _ _ _ h
    · simp only [createLoop, hg] at h
      rcases hc : repoCreate s
        { id := 0, originalURL := san, shortCode := c, clickCount := 0, createdAt := now }
        f1 f2 with ⟨s3, res⟩
      rw [hc] at h
      cases res with
      | error e =>
        cases e <;> simp only at h
        case shortCodeExists => exact ih _ _ _ _ _ h
        all_goals
          obtain ⟨h1, h2⟩ := Prod.mk.injEq .. ▸ h
          cases h2
      | ok r =>
        simp only at h
        injection h with hs2 hresp
        injection hresp with hresp2
        subst hs2
        subst hresp2
        obtain ⟨hre, hfnone, hrows, hcache⟩ := repoCreate_ok_shape _ _ _ _ _ _ hc
        subst hre
        have hfnone2 : findByCode s.db.rows c = none := hfnone
        refine ⟨i, { id := s.db.nextId, originalURL := san, shortCode := c, clickCount := 0, createdAt := now }, hg, rfl, ?_, rfl, ?_⟩
        · show findByCode s3.db.rows c = _
          rw [hrows, findByCode_append_none hfnone2]
          simp [findByCode]
        · intro hf1
          refine ⟨{ id := s.db.nextId, originalURL := san, shortCode := c, clickCount := 0, createdAt := now }, ?_, rfl⟩
          exact hcache hf1

/-- A cache hit returns the cached record immediately, without touching
the store. -/
theorem repoGet_cache_hit (s : SysState) (code : String) (rc : URL)
    (h : cGet s.cache.urls code = some rc) :
    repoGetByShortCode s code false false false = (s, .ok rc) := by
  unfold repoGetByShortCode cacheGetURL
  rw [if_neg Bool.false_ne_true, h]

/-- C3 (amended): for every locator accepted by validation, resolving
the code returned by `create(locator)` yields the *sanitized* locator,
`SanitizeInput(locator)` — which is the submitted locator exactly when
sanitization leaves it unchanged (no surrounding whitespace, no
stripped control characters). -/
theorem create_resolve_roundtrip_sanitized (baseURL : String) (gen : Nat → Option String)
    (s s2 : SysState) (rawURL : String) (now : Int) (resp : URLResponse)
    (hgen : ∀ i c, gen i = some c → c ≠ "")
    (hcreate : serviceCreateShortURL baseURL gen s rawURL now false false = (s2, .ok resp)) :
    (serviceGetOriginalURL s2 resp.shortCode false false false).2
      = .ok (SanitizeInput rawURL) := by
  unfold serviceCreateShortURL at hcreate
  cases hv : ValidateURL rawURL with
  | error e =>
    rw [hv] at hcreate
    simp only at hcreate
    obtain ⟨h1, hco⟩ := Prod.mk.injEq .. ▸ hcreate
    cases hco
  | ok u =>
    rw [hv] at hcreate
    simp only at hcreate
    obtain ⟨j, row, hgj, hrespurl, hfind, hrowurl, hcachefn⟩ :=
      createLoop_ok_shape baseURL gen (SanitizeInput rawURL) now false false 5 0 none s s2
        resp hcreate
    obtain ⟨rc, hcg, hrcurl⟩ := hcachefn rfl
    have hne : resp.shortCode ≠ "" := hgen j _ hgj
    unfold serviceGetOriginalURL
    rw [if_neg hne, repoGet_cache_hit s2 resp.shortCode rc hcg]
    simp only
    rw [hrcurl]

/-- Witness for C3 (amended) on a clean locator. -/
theorem create_resolve_roundtrip_sanitized_witness :
    (serviceGetOriginalURL
        (serviceCreateShortURL "http://localhost:8080" (fun _ => some "abc123") initState
          "https://example.com" 0 false false).1
        "abc123" false false false).2
      = .ok (SanitizeInput "https://example.com") :=
  create_resolve_roundtrip_sanitized "http://localhost:8080" (fun _ => some "abc123")
    initState _ "https://example.com" 0
    { id := 1, shortCode := "abc123", originalURL := "https://example.com", shortURL := "http://localhost:8080/abc123", clickCount := 0, createdAt := 0 }
    (fun _ c hc => by injection hc with h; subst h; decide)
    (by decide)

/-- C3 counterexample: the locator `"https://example.com/a "` (trailing
space in the path) is accepted by validation, `create` succeeds with
code `abc123`, but resolving that code returns the trimmed locator
`"https://example.com/a"`, not the submitted one — the round trip as
claimed fails. -/
theorem roundtrip_differs_on_unsanitized_locator :
    ValidateURL "https://example.com/a " = .ok () ∧
    (serviceCreateShortURL "http://localhost:8080" (fun _ => some "abc123") initState
        "https://example.com/a " 0 false false).2.toOption.map URLResponse.shortCode
      = some "abc123" ∧
    (serviceGetOriginalURL
        (serviceCreateShortURL "http://localhost:8080" (fun _ => some "abc123") initState
          "https://example.com/a " 0 false false).1
        "abc123" false false false).2
      = .ok "https://example.com/a" ∧
    "https://example.com/a" ≠ "https://example.com/a " := by
  exact ⟨by decide, by decide, by decide, by decide⟩

/-- C9 (amended): `create` sanitizes the submitted locator with
`SanitizeInput` (strip control runes, trim surrounding whitespace):
both the stored mapping record and the returned response carry
`SanitizeInput(submitted)`, which is character-for-character identical
to the submission only when sanitization is the identity on it. -/
theorem create_stores_sanitized_locator (baseURL : String) (gen : Nat → Option String)
    (s s2 : SysState) (rawURL : String) (now : Int) (fSet fStr : Bool) (resp : URLResponse)
    (hcreate : serviceCreateShortURL baseURL gen s rawURL now fSet fStr = (s2, .ok resp)) :
    resp.originalURL = SanitizeInput rawURL ∧
    (findByCode s2.db.rows resp.shortCode).map URL.originalURL
      = some (SanitizeInput rawURL) := by
  unfold serviceCreateShortURL at hcreate
  cases hv : ValidateURL rawURL with
  | error e =>
    rw [hv] at hcreate
    simp only at hcreate
    obtain ⟨h1, hco⟩ := Prod.mk.injEq .. ▸ hcreate
    cases hco
  | ok u =>
    rw [hv] at hcreate
    simp only at hcreate
    obtain ⟨j, row, hgj, hrespurl, hfind, hrowurl, _⟩ :=
      createLoop_ok_shape baseURL gen (SanitizeInput rawURL) now fSet fStr 5 0 none s s2
        resp hcreate
    refine ⟨hrespurl, ?_⟩
    rw [hfind]
    simp [hrowurl]

/-- Witness for C9 (amended) on a clean locator. -/
theorem create_stores_sanitized_locator_witness :
    ({ id := 1, shortCode := "qqqq12", originalURL := "https://w.com", shortURL := "http://x/qqqq12", clickCount := 0, createdAt := 3 } : URLResponse).originalURL
      = SanitizeInput "https://w.com" ∧
    (findByCode
        (serviceCreateShortURL "http://x" (fun _ => some "qqqq12") initState "https://w.com" 3
          false false).1.db.rows
        ({ id := 1, shortCode := "qqqq12", originalURL := "https://w.com", shortURL := "http://x/qqqq12", clickCount := 0, createdAt := 3 } : URLResponse).shortCode).map
      URL.originalURL
      = some (SanitizeInput "https://w.com") :=
  create_stores_sanitized_locator "http://x" (fun _ => some "qqqq12") initState _
    "https://w.com" 3 false false _ (by decide)

/-- C9 counterexample: submitting `"https://example.com/b "` (accepted
by validation) stores and returns `"https://example.com/b"` — not
character-for-character the submitted locator, so `create` does
sanitize. -/
theorem create_alters_submitted_locator :
    ValidateURL "https://example.com/b " = .ok () ∧
    (serviceCreateShortURL "http://x" (fun _ => some "zzzz12") initState
        "https://example.com/b " 7 false false).2.toOption.map URLResponse.originalURL
      = some "https://example.com/b" ∧
    (findByCode (serviceCreateShortURL "http://x" (fun _ => some "zzzz12") initState
        "https://example.com/b " 7 false false).1.db.rows "zzzz12").map URL.originalURL
      = some "https://example.com/b" ∧
    "https://example.com/b" ≠ "https://example.com/b " := by
  exact ⟨by decide, by decide, by decide, by decide⟩

/-- A cache miss (or deleted entry) falls through to the durable store
and returns the durable row. -/
theorem repoGet_cache_miss_db (s : SysState) (code : String) (r : URL)
    (hmiss : cGet s.cache.urls code = none) (hf : findByCode s.db.rows code = some r) :
    (repoGetByShortCode s code false false false).2 = .ok r := by
  unfold repoGetByShortCode cacheGetURL
  rw [if_neg Bool.false_ne_true, hmiss, hf]

/-- Packaging of the C4 conclusions from a finished `RecordClick` run
whose final state has the incremented durable row and no cached mapping
entry. -/
theorem recordClick_conclusions (s0 : SysState) (code : String) (bumped : URL) (s2 : SysState)
    (hrun : serviceRecordClick s0 code false false false false false = (s2, .ok ()))
    (hb : findByCode s2.db.rows code = some bumped)
    (hc : cGet s2.cache.urls code = none) :
    (serviceRecordClick s0 code false false false false false).2 = .ok () ∧
    findByCode (serviceRecordClick s0 code false false false false false).1.db.rows code
      = some bumped ∧
    cGet (serviceRecordClick s0 code false false false false false).1.cache.urls code = none ∧
    (repoGetByShortCode (serviceRecordClick s0 code false false false false false).1 code
        false false false).2 = .ok bumped := by
  rw [hrun]
  exact ⟨rfl, hb, hc, repoGet_cache_miss_db s2 code bumped hc hb⟩

/-- C4: for an existing record, `RecordClick` validates existence via
resolve semantics, succeeds, increments the durable `clickCount` by
exactly one, deletes the mapping's cache entry, and the next resolve of
that code therefore repopulates from the durable store, returning the
incremented count rather than a stale cached one. -/
theorem recordUsage_increments_and_invalidates (s : SysState) (code : String) (row : URL)
    (hInv : SysInv s) (hfind : findByCode s.db.rows code = some row) (hne : code ≠ "") :
    (serviceRecordClick s code false false false false false).2 = .ok () ∧
    findByCode (serviceRecordClick s code false false false false false).1.db.rows code
      = some { row with clickCount := row.clickCount + 1 } ∧
    cGet (serviceRecordClick s code false false false false false).1.cache.urls code = none ∧
    (repoGetByShortCode (serviceRecordClick s code false false false false false).1 code
        false false false).2 = .ok { row with clickCount := row.clickCount + 1 } := by
  obtain ⟨⟨hpw, hpwid, hlt⟩, hurl, hstr⟩ := hInv
  obtain ⟨hrmem, hrsc⟩ := findByCode_mem hfind
  have hfid : findById s.db.rows row.id = some row := findById_of_mem_unique hpwid hrmem rfl
  have hbfind : findByCode (bumpById s.db.rows row.id) code
      = some { row with clickCount := row.clickCount + 1 } := by
    rw [findByCode_bumpById, hfind]
    simp
  cases hcg : cGet s.cache.urls code with
  | some v =>
    obtain ⟨rowx, hxmem, hxcode, hvid, hvsc, hvurl, hvcount⟩ := hurl (code, v) (cGet_mem hcg)
    have hxx : rowx = row := by
      have h1 := findByCode_of_mem_unique hpw hxmem hxcode
      rw [hfind] at h1
      exact (Option.some.injEq .. ▸ h1).symm
    rw [hxx] at hvid
    have hrun : serviceRecordClick s code false false false false false
        = ({ db := { s.db with rows := bumpById s.db.rows row.id },
             cache := cacheDelURL (cacheSetClicks s.cache row.shortCode (row.clickCount + 1) false) row.shortCode false },
           .ok ()) := by
      unfold serviceRecordClick
      rw [if_neg hne, repoGet_cache_hit s code v hcg]
      show repoIncrementClickCount s v.id false false = _
      unfold repoIncrementClickCount
      rw [hvid, hfid]
    refine recordClick_conclusions s code _ _ hrun ?_ ?_
    · exact hbfind
    · show cGet (cDel s.cache.urls row.shortCode) code = none
      rw [hrsc]
      exact cGet_cDel_same _ _
  | none =>
    have hget : repoGetByShortCode s code false false false
        = ({ s with cache := cacheSetClicks (cacheSetURL s.cache code row false) code row.clickCount false },
           .ok row) := by
      unfold repoGetByShortCode cacheGetURL
      rw [if_neg Bool.false_ne_true, hcg, hfind]
    have hrun : serviceRecordClick s code false false false false false
        = ({ db := { s.db with rows := bumpById s.db.rows row.id },
             cache := cacheDelURL (cacheSetClicks (cacheSetClicks (cacheSetURL s.cache code row false) code row.clickCount false) row.shortCode (row.clickCount + 1) false) row.shortCode false },
           .ok ()) := by
      unfold serviceRecordClick
      rw [if_neg hne, hget]
      show repoIncrementClickCount
        { s with cache := cacheSetClicks (cacheSetURL s.cache code row false) code row.clickCount false }
        row.id false false = _
      unfold repoIncrementClickCount
      rw [show findById ({ s with cache := cacheSetClicks (cacheSetURL s.cache code row false) code row.clickCount false } : SysState).db.rows row.id = some row from hfid]
    refine recordClick_conclusions s code _ _ hrun ?_ ?_
    · exact hbfind
    · show cGet (cDel (cPut s.cache.urls code row) row.shortCode) code = none
      rw [hrsc]
      exact cGet_cDel_same _ _

/-- Witness for C4 on a one-record store with an empty cache. -/
theorem recordUsage_increments_and_invalidates_witness :
    (serviceRecordClick
        (applyOp initState
          (.create "http://localhost:8080" (fun _ => some "abc123") "https://example.com" 0))
        "abc123" false false false false false).2 = .ok () ∧
    findByCode
        (serviceRecordClick
          (applyOp initState
            (.create "http://localhost:8080" (fun _ => some "abc123") "https://example.com" 0))
          "abc123" false false false false false).1.db.rows "abc123"
      = some { id := 1, originalURL := "https://example.com", shortCode := "abc123", clickCount := 0 + 1, createdAt := 0 } ∧
    cGet
        (serviceRecordClick
          (applyOp initState
            (.create "http://localhost:8080" (fun _ => some "abc123") "https://example.com" 0))
          "abc123" false false false false false).1.cache.urls "abc123" = none ∧
    (repoGetByShortCode
        (serviceRecordClick
          (applyOp initState
            (.create "http://localhost:8080" (fun _ => some "abc123") "https://example.com" 0))
          "abc123" false false false false false).1 "abc123" false false false).2
      = .ok { id := 1, originalURL := "https://example.com", shortCode := "abc123", clickCount := 0 + 1, createdAt := 0 } :=
  recordUsage_increments_and_invalidates _ "abc123"
    { id := 1, originalURL := "https://example.com", shortCode := "abc123", clickCount := 0, createdAt := 0 }
    (by decide) (by decide) (by decide)

/-- C5: the observed `clickCount` never decreases.  If a resolve of
`code` observes count `v1`, then `recordUsage(code)` succeeds, and then
any sequence of further create/resolve/recordUsage operations runs, a
later resolve of `code` observes a count at least `v1`. -/
theorem resolve_clickCount_monotone (s0 s1 s2 : SysState) (code : String) (r1 r3 : URL)
    (ops : List Op) (hInv : SysInv s0)
    (hres1 : repoGetByShortCode s0 code false false false = (s1, .ok r1))
    (hrec : serviceRecordClick s1 code false false false false false = (s2, .ok ()))
    (hres3 : (repoGetByShortCode (runOps s2 ops) code false false false).2 = .ok r3) :
    r1.clickCount ≤ r3.clickCount := by
  have hlb1 : CountLB s1 code r1.clickCount :=
    countLB_resolve_establish s0 code s1 r1 hInv hres1
  have hlb2 : CountLB s2 code r1.clickCount := by
    have hh := countLB_serviceRecordClick_false s1 code code r1.clickCount hlb1
    rw [hrec] at hh
    exact hh
  have hlb3 := countLB_runOps ops s2 code r1.clickCount hlb2
  exact countLB_resolve_le (runOps s2 ops) code r1.clickCount false false false r3 hlb3 hres3

/-- Witness for C5: observe count 0, record a click, resolve again and
observe count 1. -/
theorem resolve_clickCount_monotone_witness :
    ({ id := 1, originalURL := "https://example.com", shortCode := "abc123", clickCount := 0, createdAt := 0 } : URL).clickCount
      ≤ ({ id := 1, originalURL := "https://example.com", shortCode := "abc123", clickCount := 1, createdAt := 0 } : URL).clickCount :=
  resolve_clickCount_monotone
    (applyOp initState
      (.create "http://localhost:8080" (fun _ => some "abc123") "https://example.com" 0))
    (repoGetByShortCode
      (applyOp initState
        (.create "http://localhost:8080" (fun _ => some "abc123") "https://example.com" 0))
      "abc123" false false false).1
    (serviceRecordClick
      (repoGetByShortCode
        (applyOp initState
          (.create "http://localhost:8080" (fun _ => some "abc123") "https://example.com" 0))
        "abc123" false false false).1
      "abc123" false false false false false).1
    "abc123"
    { id := 1, originalURL := "https://example.com", shortCode := "abc123", clickCount := 0, createdAt := 0 }
    { id := 1, originalURL := "https://example.com", shortCode := "abc123", clickCount := 1, createdAt := 0 }
    [] (by decide) (by decide) (by decide) (by decide)

theorem exOk_of_ex {ε α : Type} (e : Except ε α) (h : ∃ r, e = .ok r) : exOk e = true := by
  obtain ⟨r, hr⟩ := h
  rw [hr]
  rfl

theorem cacheGetURL_ok_inv (c : CacheSt) (k : String) (f : Bool) (v : URL)
    (h : cacheGetURL c k f = .ok v) : cGet c.urls k = some v := by
  unfold cacheGetURL at h
  cases hf : f with
  | true => rw [hf] at h; cases h
  | false =>
    rw [hf, if_neg Bool.false_ne_true] at h
    cases hc : cGet c.urls k with
    | some w =>
      rw [hc] at h
      have hw : Except.ok (ε := CacheErr) w = Except.ok v := h
      injection hw with hw2
      rw [hw2]
    | none => rw [hc] at h; cases h

theorem cacheGetStr_ok_inv (c : CacheSt) (k : String) (f : Bool) (v : String)
    (h : cacheGetStr c k f = .ok v) : cGet c.strs k = some v := by
  unfold cacheGetStr at h
  cases hf : f with
  | true => rw [hf] at h; cases h
  | false =>
    rw [hf, if_neg Bool.false_ne_true] at h
    cases hc : cGet c.strs k with
    | some w =>
      rw [hc] at h
      have hw : Except.ok (ε := CacheErr) w = Except.ok v := h
      injection hw with hw2
      rw [hw2]
    | none => rw [hc] at h; cases h

theorem findByCode_isSome_of_mem {rows : List URL} {c : String} (r : URL)
    (hmem : r ∈ rows) (hc : r.shortCode = c) : ∃ r2, findByCode rows c = some r2 := by
  induction rows with
  | nil => cases hmem
  | cons r0 rs ih =>
    by_cases h0 : r0.shortCode = c
    · exact ⟨r0, by simp [findByCode, h0]⟩
    · rcases List.mem_cons.mp hmem with h | h
      · subst h
        exact absurd hc h0
      · obtain ⟨r2, hr2⟩ := ih h
        exact ⟨r2, by simp [findByCode, h0, hr2]⟩

/-- With the durable row present, a resolve succeeds for every fault
schedule: a hit short-circuits, anything else falls through to the
store. -/
theorem repoGet_ok_of_db (s : SysState) (code : String) (f1 f2 f3 : Bool) (row : URL)
    (hf : findByCode s.db.rows code = some row) :
    ∃ r, (repoGetByShortCode s code f1 f2 f3).2 = .ok r := by
  unfold repoGetByShortCode
  cases hcg : cacheGetURL s.cache code f1 with
  | ok v => exact ⟨v, rfl⟩
  | error e => exact ⟨row, by rw [hf]⟩

/-- A resolve can only error when the durable row is absent. -/
theorem repoGet_err_none (s : SysState) (code : String) (f1 f2 f3 : Bool) (s2 : SysState)
    (e : AppError) (h : repoGetByShortCode s code f1 f2 f3 = (s2, .error e)) :
    findByCode s.db.rows code = none := by
  unfold repoGetByShortCode at h
  cases hcg : cacheGetURL s.cache code f1 with
  | ok v =>
    rw [hcg] at h
    simp only at h
    obtain ⟨h1, h2⟩ := Prod.mk.injEq .. ▸ h
    cases h2
  | error e2 =>
    rw [hcg] at h
    cases hf : findByCode s.db.rows code with
    | none => rfl
    | some row =>
      rw [hf] at h
      simp only at h
      obtain ⟨h1, h2⟩ := Prod.mk.injEq .. ▸ h
      cases h2

/-- The state a successful resolve hands on keeps the durable store,
and the returned record's id is a real row id. -/
theorem repoGet_ok_id (s : SysState) (code : String) (f1 f2 f3 : Bool) (s2 : SysState) (u : URL)
    (hpw : s.db.rows.Pairwise (fun a b => a.shortCode ≠ b.shortCode))
    (hpwid : s.db.rows.Pairwise (fun a b => a.id ≠ b.id))
    (hurl : InvCacheURL s)
    (h : repoGetByShortCode s code f1 f2 f3 = (s2, .ok u)) :
    s2.db = s.db ∧ ∃ rowu, findById s.db.rows u.id = some rowu := by
  constructor
  · have hdb := repoGet_db s code f1 f2 f3
    rw [h] at hdb
    exact hdb
  · unfold repoGetByShortCode at h
    cases hcg : cacheGetURL s.cache code f1 with
    | ok v =>
      rw [hcg] at h
      simp only at h
      obtain ⟨h1, h2⟩ := Prod.mk.injEq .. ▸ h
      have hv : v = u := Except.ok.injEq .. ▸ h2
      obtain ⟨rowx, hxmem, hxcode, hvid, _, _, _⟩ := hurl (code, v) (cGet_mem (cacheGetURL_ok_inv _ _ _ _ hcg))
      refine ⟨rowx, ?_⟩
      rw [← hv, hvid]
      exact findById_of_mem_unique hpwid hxmem rfl
    | error e =>
      rw [hcg] at h
      cases hf : findByCode s.db.rows code with
      | none =>
        rw [hf] at h
        simp only at h
        obtain ⟨h1, h2⟩ := Prod.mk.injEq .. ▸ h
        cases h2
      | some row =>
        rw [hf] at h
        simp only at h
        obtain ⟨h1, h2⟩ := Prod.mk.injEq .. ▸ h
        have hv : row = u := Except.ok.injEq .. ▸ h2
        refine ⟨row, ?_⟩
        rw [← hv]
        exact findById_of_mem_unique hpwid (findByCode_mem hf).1 rfl

/-- With the target row present, the increment succeeds for every fault
schedule. -/
theorem repoIncrement_ok (s : SysState) (i : Int) (f1 f2 : Bool) (row : URL)
    (h : findById s.db.rows i = some row) :
    (repoIncrementClickCount s i f1 f2).2 = .ok () := by
  unfold repoIncrementClickCount
  rw [h]

/-- C7: cache-layer errors are never propagated.  For every fault
schedule on the cache calls: a create whose conditional insert succeeds
returns the new record; a resolve of an existing code succeeds; an
increment of an existing id succeeds; a reverse lookup of a stored
locator succeeds; and `RecordClick` on an existing code succeeds — the
operation always falls through to the durable store. -/
theorem cache_errors_never_fail_operations (s : SysState) (hInv : SysInv s) :
    (∀ (u : URL) (f1 f2 : Bool), findByCode s.db.rows u.shortCode = none →
      (repoCreate s u f1 f2).2 = .ok { u with id := s.db.nextId }) ∧
    (∀ (code : String) (row : URL) (f1 f2 f3 : Bool), findByCode s.db.rows code = some row →
      exOk (repoGetByShortCode s code f1 f2 f3).2 = true) ∧
    (∀ (i : Int) (row : URL) (f1 f2 : Bool), findById s.db.rows i = some row →
      (repoIncrementClickCount s i f1 f2).2 = .ok ()) ∧
    (∀ (url : String) (row : URL) (f1 f2 f3 f4 f5 f6 : Bool),
      dbNewestByOriginal s.db.rows url = some row →
      exOk (repoGetByOriginalURL s url f1 f2 f3 f4 f5 f6).2 = true) ∧
    (∀ (code : String) (row : URL) (f1 f2 f3 f4 f5 : Bool), code ≠ "" →
      findByCode s.db.rows code = some row →
      (serviceRecordClick s code f1 f2 f3 f4 f5).2 = .ok ()) := by
  obtain ⟨⟨hpw, hpwid, hlt⟩, hurl, hstr⟩ := hInv
  refine ⟨?_, ?_, ?_, ?_, ?_⟩
  · intro u f1 f2 hnone
    unfold repoCreate dbCreate
    rw [hnone]
  · intro code row f1 f2 f3 hf
    exact exOk_of_ex _ (repoGet_ok_of_db s code f1 f2 f3 row hf)
  · intro i row f1 f2 hf
    exact repoIncrement_ok s i f1 f2 row hf
  · intro url row f1 f2 f3 f4 f5 f6 hnewest
    unfold repoGetByOriginalURL
    cases hcg : cacheGetStr s.cache url f1 with
    | ok c =>
      simp only
      by_cases hcne : c ≠ ""
      · rw [if_pos hcne]
        obtain ⟨row2, hmem2, hsc2⟩ := hstr (url, c) (cGet_mem (cacheGetStr_ok_inv _ _ _ _ hcg)) hcne
        obtain ⟨r2, hr2⟩ := findByCode_isSome_of_mem row2 hmem2 hsc2
        exact exOk_of_ex _ (repoGet_ok_of_db s c f2 f3 f4 r2 hr2)
      · rw [if_neg hcne, hnewest]
        rfl
    | error e =>
      simp only
      rw [hnewest]
      rfl
  · intro code row f1 f2 f3 f4 f5 hne hf
    unfold serviceRecordClick
    rw [if_neg hne]
    rcases hg : repoGetByShortCode s code f1 f2 f3 with ⟨s2, res⟩
    cases res with
    | error e =>
      have := repoGet_err_none s code f1 f2 f3 s2 e hg
      rw [hf] at this
      cases this
    | ok u =>
      simp only
      obtain ⟨hdb, rowu, hfu⟩ := repoGet_ok_id s code f1 f2 f3 s2 u hpw hpwid hurl hg
      apply repoIncrement_ok s2 u.id f4 f5 rowu
      rw [hdb]
      exact hfu

/-- Witness for C7: a one-record store with a faulted cache on every
call still completes each operation. -/
theorem cache_errors_never_fail_operations_witness :
    (repoCreate
        (applyOp initState
          (.create "http://localhost:8080" (fun _ => some "abc123") "https://example.com" 0))
        { id := 0, originalURL := "https://z.com", shortCode := "zzz999", clickCount := 0, createdAt := 4 }
        true true).2
      = .ok { id := 2, originalURL := "https://z.com", shortCode := "zzz999", clickCount := 0, createdAt := 4 } ∧
    exOk (repoGetByShortCode
        (applyOp initState
          (.create "http://localhost:8080" (fun _ => some "abc123") "https://example.com" 0))
        "abc123" true true true).2 = true ∧
    (repoIncrementClickCount
        (applyOp initState
          (.create "http://localhost:8080" (fun _ => some "abc123") "https://example.com" 0))
        1 true true).2 = .ok () ∧
    exOk (repoGetByOriginalURL
        (applyOp initState
          (.create "http://localhost:8080" (fun _ => some "abc123") "https://example.com" 0))
        "https://example.com" true true true true true true).2 = true ∧
    (serviceRecordClick
        (applyOp initState
          (.create "http://localhost:8080" (fun _ => some "abc123") "https://example.com" 0))
        "abc123" true true true true true).2 = .ok () := by
  have h := cache_errors_never_fail_operations
    (applyOp initState
      (.create "http://localhost:8080" (fun _ => some "abc123") "https://example.com" 0))
    (by decide)
  refine ⟨?_, ?_, ?_, ?_, ?_⟩
  · exact h.1 { id := 0, originalURL := "https://z.com", shortCode := "zzz999", clickCount := 0, createdAt := 4 } true true (by decide)
  · exact h.2.1 "abc123"
      { id := 1, originalURL := "https://example.com", shortCode := "abc123", clickCount := 0, createdAt := 0 }
      true true true (by decide)
  · exact h.2.2.1 1
      { id := 1, originalURL := "https://example.com", shortCode := "abc123", clickCount := 0, createdAt := 0 }
      true true (by decide)
  · exact h.2.2.2.1 "https://example.com"
      { id := 1, originalURL := "https://example.com", shortCode := "abc123", clickCount := 0, createdAt := 0 }
      true true true true true true (by decide)
  · exact h.2.2.2.2 "abc123"
      { id := 1, originalURL := "https://example.com", shortCode := "abc123", clickCount := 0, createdAt := 0 }
      true true true true true (by decide) (by decide)
